import Mathlib

/-!
Verification development for the help / pagination / permission core of the
`poise` fork under study.  The Rust sources are shallowly embedded: strings
become `List Char`, the `while` loop of the chunker becomes a fuel-indexed
recursion whose `none` result models divergence, and Rust panics
(`unwrap` / `expect` / `assert!` / division by zero) become the `panicked`
constructor of `PanicOr`.
-/

namespace Poise

/-- Outcome of a Rust computation that may panic. -/
inductive PanicOr (α : Type) : Type where
  | panicked (msg : String) : PanicOr α
  | ok (a : α) : PanicOr α
deriving Repr, DecidableEq

/-- Rust `Option::expect`: the value, or a panic with the given message. -/
def rustExpect {α : Type} (msg : String) : Option α → PanicOr α
  | some a => PanicOr.ok a
  | none => PanicOr.panicked msg

/-- Rust `Result::unwrap` on a `Result<A, String>`-shaped value. -/
def rustUnwrap {α : Type} : Except String α → PanicOr α
  | Except.ok a => PanicOr.ok a
  | Except.error e => PanicOr.panicked e

/-- Rust `%` on `usize`: panics when the divisor is zero. -/
def rustRem (a b : Nat) : PanicOr Nat :=
  if b = 0 then
    PanicOr.panicked "attempt to calculate the remainder with a divisor of zero"
  else PanicOr.ok (a % b)

/-- Rust slice indexing `l[i]`: panics when out of bounds. -/
def rustIndex {α : Type} (l : List α) (i : Nat) : PanicOr α :=
  match l[i]? with
  | some x => PanicOr.ok x
  | none => PanicOr.panicked "index out of bounds"

/-- Index of the last `'\n'` in a character list, as Rust `str::rfind('\n')`. -/
def rfindNewline : List Char → Option Nat
  | [] => none
  | c :: rest =>
    match rfindNewline rest with
    | some i => some (i + 1)
    | none => if c = '\n' then some 0 else none

/-- The loop body's cursor update in `split_string_into_chunks_newline`:
from cursor `cur` the Rust code computes `next = min (cur + chunk_size) end`,
takes the window `string[cur..next]`, and resumes after the last newline of
the window if there is one, at `next` otherwise. -/
def nextCursor (chunk_size : Nat) (s : List Char) (cur : Nat) : Nat :=
  let nxt := min (cur + chunk_size) s.length
  let window := (s.drop cur).take (nxt - cur)
  match rfindNewline window with
  | some index => cur + index + 1
  | none => nxt

/-- The chunk pushed by one iteration of the loop, at cursor `cur`. -/
def chunkAt (chunk_size : Nat) (s : List Char) (cur : Nat) : List Char :=
  let nxt := min (cur + chunk_size) s.length
  let window := (s.drop cur).take (nxt - cur)
  match rfindNewline window with
  | some index => window.take index
  | none => window

/-- Fuel-indexed embedding of the `while cur < end` loop of
`split_string_into_chunks_newline`; `none` means the fuel ran out, which
models divergence when no fuel suffices. -/
def splitLoop (chunk_size : Nat) (s : List Char) : Nat → Nat → Option (List (List Char))
  | 0, cur => if cur < s.length then none else some []
  | fuel + 1, cur =>
    if cur < s.length then
      let nxt := min (cur + chunk_size) s.length
      let window := (s.drop cur).take (nxt - cur)
      match rfindNewline window with
      | some index =>
        (splitLoop chunk_size s fuel (cur + index + 1)).map (fun rest => window.take index :: rest)
      | none => (splitLoop chunk_size s fuel nxt).map (fun rest => window :: rest)
    else some []

/-- `split_string_into_chunks_newline` from `src/builtins/help.rs`: runs the
loop from cursor 0 with fuel `s.length` (enough whenever the loop
terminates, since every iteration advances the cursor). -/
def split_string_into_chunks_newline (s : List Char) (chunk_size : Nat) :
    Option (List (List Char)) :=
  splitLoop chunk_size s s.length 0

/-- Ghost-instrumented variant of `splitLoop`: alongside each chunk it
records whether that chunk's cut removed a newline from the input. -/
def splitLoopG (chunk_size : Nat) (s : List Char) :
    Nat → Nat → Option (List (List Char × Bool))
  | 0, cur => if cur < s.length then none else some []
  | fuel + 1, cur =>
    if cur < s.length then
      let nxt := min (cur + chunk_size) s.length
      let window := (s.drop cur).take (nxt - cur)
      match rfindNewline window with
      | some index =>
        (splitLoopG chunk_size s fuel (cur + index + 1)).map
          (fun rest => (window.take index, true) :: rest)
      | none => (splitLoopG chunk_size s fuel nxt).map (fun rest => (window, false) :: rest)
    else some []

theorem rfindNewline_spec (w : List Char) (i : Nat) (h : rfindNewline w = some i) :
    i < w.length ∧ w[i]? = some '\n' := by
  induction w generalizing i with
  | nil => simp [rfindNewline] at h
  | cons c rest ih =>
    rw [rfindNewline] at h
    cases hr : rfindNewline rest with
    | some j =>
      rw [hr] at h
      simp only [Option.some.injEq] at h
      subst h
      obtain ⟨h1, h2⟩ := ih j hr
      refine ⟨by simpa using Nat.succ_lt_succ h1, ?_⟩
      simpa using h2
    | none =>
      rw [hr] at h
      by_cases hc : c = '\n'
      · simp only [hc, if_true] at h
        simp only [Option.some.injEq] at h
        subst h
        simp [hc]
      · simp [hc] at h

theorem nextCursor_lt (cs : Nat) (hcs : 1 ≤ cs) (s : List Char) (cur : Nat)
    (hc : cur < s.length) : cur < nextCursor cs s cur := by
  cases hrf : rfindNewline ((s.drop cur).take (min (cur + cs) s.length - cur)) with
  | some i =>
    simp only [nextCursor, hrf]
    omega
  | none =>
    simp only [nextCursor, hrf]
    omega

theorem splitLoopG_isSome (cs : Nat) (hcs : 1 ≤ cs) (s : List Char) :
    ∀ fuel cur, s.length - cur ≤ fuel → (splitLoopG cs s fuel cur).isSome := by
  intro fuel
  induction fuel with
  | zero =>
    intro cur h
    have hc : ¬ cur < s.length := by omega
    simp [splitLoopG, hc]
  | succ fuel ih =>
    intro cur h
    by_cases hc : cur < s.length
    · have hadv := nextCursor_lt cs hcs s cur hc
      simp only [splitLoopG, hc, if_true]
      cases hrf : rfindNewline ((s.drop cur).take (min (cur + cs) s.length - cur)) with
      | some i =>
        have hnc : nextCursor cs s cur = cur + i + 1 := by simp [nextCursor, hrf]
        have := ih (cur + i + 1) (by omega)
        obtain ⟨r, hr⟩ := Option.isSome_iff_exists.mp this
        simp [hr]
      | none =>
        have hnc : nextCursor cs s cur = min (cur + cs) s.length := by simp [nextCursor, hrf]
        have := ih (min (cur + cs) s.length) (by omega)
        obtain ⟨r, hr⟩ := Option.isSome_iff_exists.mp this
        simp [hr]
    · simp [splitLoopG, hc]

theorem splitLoop_eq_fst (cs : Nat) (s : List Char) :
    ∀ fuel cur, splitLoop cs s fuel cur = (splitLoopG cs s fuel cur).map (List.map Prod.fst) := by
  intro fuel
  induction fuel with
  | zero =>
    intro cur
    by_cases hc : cur < s.length <;> simp [splitLoop, splitLoopG, hc]
  | succ fuel ih =>
    intro cur
    by_cases hc : cur < s.length
    · cases hrf : rfindNewline ((s.drop cur).take (min (cur + cs) s.length - cur)) with
      | some i =>
        simp only [splitLoop, splitLoopG, hc, if_true, hrf]
        rw [ih]
        cases splitLoopG cs s fuel (cur + i + 1) <;> simp
      | none =>
        simp only [splitLoop, splitLoopG, hc, if_true, hrf]
        rw [ih]
        cases splitLoopG cs s fuel (min (cur + cs) s.length) <;> simp
    · simp [splitLoop, splitLoopG, hc]

theorem splitLoopG_join (cs : Nat) (s : List Char) :
    ∀ fuel cur ann, splitLoopG cs s fuel cur = some ann →
      (ann.map (fun p => p.1 ++ if p.2 then ['\n'] else [])).flatten = s.drop cur := by
  intro fuel
  induction fuel with
  | zero =>
    intro cur ann h
    by_cases hc : cur < s.length
    · simp [splitLoopG, hc] at h
    · simp only [splitLoopG, hc, if_false] at h
      have hd : s.drop cur = [] := List.drop_eq_nil_of_le (by omega)
      simp only [Option.some.injEq] at h
      subst h
      simp [hd]
  | succ fuel ih =>
    intro cur ann h
    by_cases hc : cur < s.length
    · simp only [splitLoopG, hc, if_true] at h
      cases hrf : rfindNewline ((s.drop cur).take (min (cur + cs) s.length - cur)) with
      | some i =>
        rw [hrf] at h
        simp only [Option.map_eq_some'] at h
        obtain ⟨rest, hrest, hann⟩ := h
        subst hann
        have hrec := ih (cur + i + 1) rest hrest
        obtain ⟨hi, hnl⟩ := rfindNewline_spec _ i hrf
        have hwl : ((s.drop cur).take (min (cur + cs) s.length - cur)).length =
            min (min (cur + cs) s.length - cur) (s.length - cur) := by
          simp [List.length_take]
        have hik : i < min (cur + cs) s.length - cur := by omega
        have hdi : (s.drop cur)[i]? = some '\n' := by
          rw [List.getElem?_take] at hnl
          simpa [hik] using hnl
        have hidl : i < (s.drop cur).length := by
          rw [List.getElem?_eq_some] at hdi
          exact hdi.1
        have htt : ((s.drop cur).take (min (cur + cs) s.length - cur)).take i =
            (s.drop cur).take i := by
          rw [List.take_take]
          congr 1
          omega
        have hget : (s.drop cur)[i] = '\n' := by
          rw [List.getElem?_eq_some] at hdi
          exact hdi.2
        have hdecomp : s.drop cur = (s.drop cur).take i ++ '\n' :: s.drop (cur + i + 1) := by
          conv_lhs => rw [← List.take_append_drop i (s.drop cur)]
          congr 1
          rw [List.drop_eq_getElem_cons hidl, hget, List.drop_drop]
          rfl
        simp only [List.map_cons, List.flatten_cons, if_true, htt]
        rw [hrec]
        conv_rhs => rw [hdecomp]
        simp
      | none =>
        rw [hrf] at h
        simp only [Option.map_eq_some'] at h
        obtain ⟨rest, hrest, hann⟩ := h
        subst hann
        have hrec := ih (min (cur + cs) s.length) rest hrest
        simp only [List.map_cons, List.flatten_cons, if_false]
        rw [hrec]
        have hdd : s.drop (min (cur + cs) s.length) = (s.drop cur).drop (min (cur + cs) s.length - cur) := by
          rw [List.drop_drop]
          congr 1
          omega
        rw [hdd]
        simp [List.take_append_drop]
    · simp only [splitLoopG, hc, if_false] at h
      have hd : s.drop cur = [] := List.drop_eq_nil_of_le (by omega)
      simp only [Option.some.injEq] at h
      subst h
      simp [hd]

theorem splitLoopG_size (cs : Nat) (s : List Char) :
    ∀ fuel cur ann, splitLoopG cs s fuel cur = some ann →
      ∀ p ∈ ann, p.1.length ≤ cs := by
  intro fuel
  induction fuel with
  | zero =>
    intro cur ann h
    by_cases hc : cur < s.length
    · simp [splitLoopG, hc] at h
    · simp only [splitLoopG, hc, if_false] at h
      simp only [Option.some.injEq] at h
      subst h
      intro p hp
      cases hp
  | succ fuel ih =>
    intro cur ann h
    by_cases hc : cur < s.length
    · simp only [splitLoopG, hc, if_true] at h
      cases hrf : rfindNewline ((s.drop cur).take (min (cur + cs) s.length - cur)) with
      | some i =>
        rw [hrf] at h
        simp only [Option.map_eq_some'] at h
        obtain ⟨rest, hrest, hann⟩ := h
        subst hann
        intro p hp
        rcases List.mem_cons.mp hp with rfl | hm
        · simp only [List.length_take, List.length_drop]
          omega
        · exact ih _ rest hrest p hm
      | none =>
        rw [hrf] at h
        simp only [Option.map_eq_some'] at h
        obtain ⟨rest, hrest, hann⟩ := h
        subst hann
        intro p hp
        rcases List.mem_cons.mp hp with rfl | hm
        · simp only [List.length_take, List.length_drop]
          omega
        · exact ih _ rest hrest p hm
    · simp only [splitLoopG, hc, if_false] at h
      simp only [Option.some.injEq] at h
      subst h
      intro p hp
      cases hp

/-- C1: for every text `t` and chunk size `s ≥ 1`, the chunker yields chunks
of at most `s` characters each, and re-inserting the newline removed at each
newline-boundary cut between the chunks reconstructs `t` exactly; on
`"AAAA\nBBBB\nCCCC"` with chunk size 6 the result is
`["AAAA", "BBBB", "CCCC"]`. -/
theorem C1_split_chunks_reconstruct (t : List Char) (s : Nat) (hs : 1 ≤ s) :
    ∃ ann, splitLoopG s t t.length 0 = some ann ∧
      split_string_into_chunks_newline t s = some (ann.map Prod.fst) ∧
      (∀ c ∈ ann.map Prod.fst, c.length ≤ s) ∧
      (ann.map (fun p => p.1 ++ if p.2 then ['\n'] else [])).flatten = t ∧
      split_string_into_chunks_newline ("AAAA\nBBBB\nCCCC").data 6 =
        some [("AAAA").data, ("BBBB").data, ("CCCC").data] := by
  have h1 := splitLoopG_isSome s hs t t.length 0 (by omega)
  obtain ⟨ann, hann⟩ := Option.isSome_iff_exists.mp h1
  refine ⟨ann, hann, ?_, ?_, ?_, by decide⟩
  · rw [split_string_into_chunks_newline, splitLoop_eq_fst, hann]
    rfl
  · intro c hcm
    obtain ⟨p, hp, hpc⟩ := List.mem_map.mp hcm
    have := splitLoopG_size s t t.length 0 ann hann p hp
    rw [← hpc]
    exact this
  · simpa using splitLoopG_join s t t.length 0 ann hann

/-- Witness for C1 at the spec's concrete example. -/
theorem C1_split_chunks_reconstruct_witness :
    1 ≤ 6 ∧ ∃ ann,
      splitLoopG 6 ("AAAA\nBBBB\nCCCC").data (("AAAA\nBBBB\nCCCC").data).length 0 = some ann ∧
      split_string_into_chunks_newline ("AAAA\nBBBB\nCCCC").data 6 = some (ann.map Prod.fst) ∧
      (∀ c ∈ ann.map Prod.fst, c.length ≤ 6) ∧
      (ann.map (fun p => p.1 ++ if p.2 then ['\n'] else [])).flatten = ("AAAA\nBBBB\nCCCC").data ∧
      split_string_into_chunks_newline ("AAAA\nBBBB\nCCCC").data 6 =
        some [("AAAA").data, ("BBBB").data, ("CCCC").data] :=
  ⟨by decide, C1_split_chunks_reconstruct ("AAAA\nBBBB\nCCCC").data 6 (by decide)⟩

/-- C2 counterexample: on the empty string (with chunk size 6) the chunker
returns the empty list of chunks, not one empty chunk. -/
theorem C2_counterexample :
    split_string_into_chunks_newline [] 6 = some [] ∧
    split_string_into_chunks_newline [] 6 ≠ some [([] : List Char)] := by
  constructor
  · decide
  · decide

/-- C2 amended: for every chunk size, the chunker applied to the empty string
returns zero chunks (the empty list), because the `while cur < end` loop body
never runs when `end = 0`. -/
theorem C2_empty_string_chunks (chunk_size : Nat) :
    split_string_into_chunks_newline [] chunk_size = some [] := by
  simp [split_string_into_chunks_newline, splitLoop]

/-- C9: with `chunk_size ≥ 1` every loop iteration strictly advances the
cursor (so the loop terminates: running with fuel `t.length` succeeds), the
loop body is exactly one `chunkAt`/`nextCursor` step, and with
`chunk_size = 0` on a non-empty input the cursor never advances and no
amount of fuel completes the loop. -/
theorem C9_termination (s : List Char) (cs : Nat) :
    (1 ≤ cs → ∀ cur, cur < s.length → cur < nextCursor cs s cur) ∧
    (∀ fuel cur, cur < s.length →
      splitLoop cs s (fuel + 1) cur =
        (splitLoop cs s fuel (nextCursor cs s cur)).map
          (fun rest => chunkAt cs s cur :: rest)) ∧
    (1 ≤ cs → (split_string_into_chunks_newline s cs).isSome) ∧
    (∀ cur, cur < s.length → nextCursor 0 s cur = cur) ∧
    (s ≠ [] → ∀ fuel, splitLoop 0 s fuel 0 = none) := by
  refine ⟨fun hcs cur hc => nextCursor_lt cs hcs s cur hc, ?_, ?_, ?_, ?_⟩
  · intro fuel cur hc
    simp only [splitLoop, nextCursor, chunkAt, hc, if_true]
    cases hrf : rfindNewline ((s.drop cur).take (min (cur + cs) s.length - cur)) <;> simp
  · intro hcs
    rw [split_string_into_chunks_newline, splitLoop_eq_fst]
    have := splitLoopG_isSome cs hcs s s.length 0 (by omega)
    obtain ⟨r, hr⟩ := Option.isSome_iff_exists.mp this
    simp [hr]
  · intro cur hc
    have h0 : min (cur + 0) s.length = cur := by omega
    simp [nextCursor, h0, rfindNewline]
    omega
  · intro hne fuel
    have h0 : 0 < s.length := List.length_pos.mpr hne
    induction fuel with
    | zero => simp [splitLoop, h0]
    | succ fuel ih =>
      have hmin : min (0 + 0) s.length = 0 := by omega
      simp only [splitLoop, h0, if_true, hmin]
      simp only [Nat.sub_self, List.take_zero, rfindNewline]
      rw [ih]
      rfl

/-- Witness for C9 on a concrete two-line string. -/
theorem C9_termination_witness :
    (0 < nextCursor 1 ("a\nb").data 0) ∧
    (split_string_into_chunks_newline ("a\nb").data 1).isSome ∧
    nextCursor 0 ("a\nb").data 0 = 0 ∧
    splitLoop 0 ("a\nb").data 5 0 = none :=
  ⟨(C9_termination ("a\nb").data 1).1 (by decide) 0 (by decide),
   (C9_termination ("a\nb").data 1).2.2.1 (by decide),
   (C9_termination ("a\nb").data 0).2.2.2.1 0 (by decide),
   (C9_termination ("a\nb").data 0).2.2.2.2 (by decide) 5⟩

/-- The page lookup closure built by `create_page_getter_newline`: reduce the
requested page modulo the chunk count (a Rust `%`, which panics on zero) and
index into the chunk list. -/
def page_getter (chunks : List (List Char)) (page : Nat) : PanicOr (List Char) :=
  match rustRem page chunks.length with
  | PanicOr.panicked msg => PanicOr.panicked msg
  | PanicOr.ok p => rustIndex chunks p

/-- `create_page_getter_newline` from `src/builtins/help.rs`: split the text,
then capture the chunks in a page-lookup closure.  The outer `Option` is the
fuel artifact of the chunker embedding. -/
def create_page_getter_newline (s : List Char) (chunk_size : Nat) :
    Option (Nat → PanicOr (List Char)) :=
  (split_string_into_chunks_newline s chunk_size).map (fun chunks => page_getter chunks)

/-- Page count as computed in `create_paged_embed`:
`content.len() / page_size + 1` from the raw text length. -/
def num_pages (content : List Char) (page_size : Nat) : Nat :=
  content.length / page_size + 1

/-- One step of the button-driven state machine in `create_paged_embed`'s
event loop; `none` models the `_ => continue` arm (no state change, no
re-render).  `page - 1` is Rust `saturating_sub(1)` on `usize`. -/
def nav_step (btn_id : String) (page np : Nat) : Option Nat :=
  match btn_id with
  | "<<" => some 0
  | "<" => some (min (page - 1) (np - 1))
  | ">" => some (min (page + 1) (np - 1))
  | ">>" => some (np - 1)
  | _ => none

/-- The code run after the event loop times out in `create_paged_embed`:
the final message edit's result is passed to `.unwrap()`, and on success the
function returns `Ok(())`. -/
def timeout_finalize (edit_result : Except String Unit) : PanicOr Unit :=
  match rustUnwrap edit_result with
  | PanicOr.panicked msg => PanicOr.panicked msg
  | PanicOr.ok _ => PanicOr.ok ()

/-- C3: for every in-range page `c < np`, the event-loop step maps `"<<"` to
page 0, `"<"` to `max 0 (c-1)`, `">"` to `min (np-1) (c+1)`, `">>"` to
`np-1`, ignores every other control id (no state change, no re-render), and
is idempotent at the boundaries: `">"` at `np-1` stays at `np-1` and `"<"`
at 0 stays at 0. -/
theorem C3_nav_transitions (c np : Nat) (hc : c < np) :
    nav_step ("<<") c np = some 0 ∧
    nav_step ("<") c np = some (max 0 (c - 1)) ∧
    nav_step (">") c np = some (min (np - 1) (c + 1)) ∧
    nav_step (">>") c np = some (np - 1) ∧
    (∀ btn, btn ≠ "<<" → btn ≠ "<" → btn ≠ ">" → btn ≠ ">>" →
      nav_step btn c np = none) ∧
    nav_step (">") (np - 1) np = some (np - 1) ∧
    nav_step ("<") 0 np = some 0 := by
  refine ⟨rfl, ?_, ?_, rfl, ?_, ?_, ?_⟩
  · simp only [nav_step, Option.some.injEq]
    omega
  · simp only [nav_step, Option.some.injEq]
    omega
  · intro btn h1 h2 h3 h4
    simp only [nav_step]
  · simp only [nav_step, Option.some.injEq]
    omega
  · simp only [nav_step, Option.some.injEq]
    omega

/-- Witness for C3 at page 1 of 3 with an unknown control id. -/
theorem C3_nav_transitions_witness :
    nav_step ("<<") 1 3 = some 0 ∧ nav_step ("x") 1 3 = none :=
  ⟨(C3_nav_transitions 1 3 (by decide)).1,
   (C3_nav_transitions 1 3 (by decide)).2.2.2.2.1 ("x")
     (by decide) (by decide) (by decide) (by decide)⟩

/-- C4 counterexample: when the post-timeout message edit fails, the engine
does not return normally — the `.unwrap()` panics with the edit error. -/
theorem C4_counterexample :
    timeout_finalize (Except.error ("edit failed")) =
      PanicOr.panicked ("edit failed") ∧
    timeout_finalize (Except.error ("edit failed")) ≠ PanicOr.ok () := by
  exact ⟨rfl, by decide⟩

/-- C4 amended: a failure of the final timeout-notice edit is not ignored:
`create_paged_embed` calls `.unwrap()` on the edit result, so a failed edit
panics with the edit's error, while a successful edit lets the function
return normally. -/
theorem C4_timeout_edit_unwraps :
    (∀ msg, timeout_finalize (Except.error msg) = PanicOr.panicked msg) ∧
    timeout_finalize (Except.ok ()) = PanicOr.ok () :=
  ⟨fun _ => rfl, rfl⟩

/-- Guild member data as read by the permission calculation: the member's
resolved permission set (present on in-guild interactions). -/
structure Member where
  permissions : Option Nat

/-- The fields of a `serenity::CommandInteraction` read by
`get_author_and_bot_permissions`; permission sets are opaque bit sets,
embedded as `Nat`. -/
structure CommandInteraction where
  member : Option Member
  app_permissions : Option Nat

/-- `PermissionsInfo` from `src/dispatch/permissions`. -/
structure PermissionsInfo where
  author_permissions : Option Nat
  bot_permissions : Option Nat
deriving DecidableEq, Repr

/-- `get_author_and_bot_permissions` from
`src/dispatch/permissions/application.rs`: `expect`s the member, the
member's permissions and the app permissions, and wraps both in `Some`. -/
def get_author_and_bot_permissions (interaction : CommandInteraction) :
    PanicOr PermissionsInfo :=
  match rustExpect ("member is Some if interaction is in guild") interaction.member with
  | PanicOr.panicked msg => PanicOr.panicked msg
  | PanicOr.ok author_member =>
    match rustExpect ("should always be some as inside interaction") author_member.permissions with
    | PanicOr.panicked msg => PanicOr.panicked msg
    | PanicOr.ok author_permissions =>
      match rustExpect ("should always be some according to discord docs") interaction.app_permissions with
      | PanicOr.panicked msg => PanicOr.panicked msg
      | PanicOr.ok bot_permissions =>
        PanicOr.ok ⟨some author_permissions, some bot_permissions⟩

/-- Modelled from the spec: the invocation contexts permission evaluation
distinguishes.  The dispatcher that routes non-guild contexts is not under
`src/`; only the guild-interaction path
(`get_author_and_bot_permissions`) is. -/
inductive InvocationContext : Type where
  | guildInteraction (interaction : CommandInteraction) : InvocationContext
  | nonGuild : InvocationContext

/-- Modelled from the spec: permission evaluation over a whole invocation
context.  §4.2: "For non-guild or ambiguous contexts, both fields are
`None`"; guild interactions go through `get_author_and_bot_permissions`. -/
def evaluate : InvocationContext → PanicOr PermissionsInfo
  | InvocationContext.guildInteraction interaction =>
    get_author_and_bot_permissions interaction
  | InvocationContext.nonGuild => PanicOr.ok ⟨none, none⟩

/-- C5: permission evaluation on a non-guild context returns
`PermissionsInfo` with both fields `None` without failing, and on a guild
interaction whose member-permission and app-permission fields are populated
it returns both as `Some` of those values. -/
theorem C5_permissions_eval :
    evaluate InvocationContext.nonGuild = PanicOr.ok ⟨none, none⟩ ∧
    ∀ (ap bp : Nat),
      evaluate (InvocationContext.guildInteraction ⟨some ⟨some ap⟩, some bp⟩) =
        PanicOr.ok ⟨some ap, some bp⟩ :=
  ⟨rfl, fun _ _ => rfl⟩

/-- C6: `create_paged_embed` computes its displayed page count as
`content.len() / page_size + 1` from the raw text length (not the chunk
count), and the page getter reconciles every page index modulo the actual
chunk count before indexing, so accepted navigation never indexes out of
range (the lookup succeeds for every page the state machine can produce). -/
theorem C6_page_count_and_mod :
    (∀ (content : List Char) (page_size : Nat),
      num_pages content page_size = content.length / page_size + 1) ∧
    (∀ (chunks : List (List Char)) (page : Nat), chunks ≠ [] →
      page % chunks.length < chunks.length ∧
      page_getter chunks page = PanicOr.ok (chunks.getD (page % chunks.length) []) ∧
      ∃ c, page_getter chunks page = PanicOr.ok c) ∧
    (∀ btn c np p2, nav_step btn c np = some p2 →
      ∀ (chunks : List (List Char)), chunks ≠ [] →
      ∃ c2, page_getter chunks p2 = PanicOr.ok c2) := by
  have key : ∀ (chunks : List (List Char)) (page : Nat), chunks ≠ [] →
      page % chunks.length < chunks.length ∧
      page_getter chunks page = PanicOr.ok (chunks.getD (page % chunks.length) []) := by
    intro chunks page hne
    have hlen : chunks.length ≠ 0 := by
      have := List.length_pos.mpr hne
      omega
    have hmod : page % chunks.length < chunks.length :=
      Nat.mod_lt page (Nat.pos_of_ne_zero hlen)
    refine ⟨hmod, ?_⟩
    simp only [page_getter, rustRem, hlen, if_false, rustIndex]
    rw [List.getElem?_eq_getElem hmod]
    rw [List.getD_eq_getElem _ _ hmod]
  refine ⟨fun _ _ => rfl, ?_, ?_⟩
  · intro chunks page hne
    obtain ⟨h1, h2⟩ := key chunks page hne
    exact ⟨h1, h2, ⟨_, h2⟩⟩
  · intro btn c np p2 _ chunks hne
    exact ⟨_, (key chunks p2 hne).2⟩

/-- Witness for C6 on two concrete chunks and a `">"` navigation step. -/
theorem C6_page_count_and_mod_witness :
    5 % 2 < 2 ∧
    page_getter [("AAAA").data, ("BBBB").data] 5 = PanicOr.ok ("BBBB").data ∧
    ∃ c2, page_getter [("AAAA").data, ("BBBB").data] 1 = PanicOr.ok c2 :=
  ⟨(C6_page_count_and_mod.2.1 [("AAAA").data, ("BBBB").data] 5 (by decide)).1,
   ((C6_page_count_and_mod.2.1 [("AAAA").data, ("BBBB").data] 5 (by decide)).2.1).trans
     (by decide),
   C6_page_count_and_mod.2.2 (">") 0 2 1 (by decide) [("AAAA").data, ("BBBB").data]
     (by decide)⟩

/-- C10: when the text splits into at least one chunk the getter returns a
chunk of the split for every page index (the modulo keeps the index in
range); the empty string splits into zero chunks, and then the getter hits
a remainder-by-zero panic at every index. -/
theorem C10_page_getter_safety :
    (∀ (t : List Char) (cs : Nat) (chunks : List (List Char)),
      split_string_into_chunks_newline t cs = some chunks →
      create_page_getter_newline t cs = some (page_getter chunks) ∧
      (chunks ≠ [] → ∀ page, ∃ c, page_getter chunks page = PanicOr.ok c ∧ c ∈ chunks)) ∧
    (∀ cs, split_string_into_chunks_newline [] cs = some [] ∧
      ∀ page, page_getter [] page =
        PanicOr.panicked ("attempt to calculate the remainder with a divisor of zero")) := by
  constructor
  · intro t cs chunks hsplit
    constructor
    · simp [create_page_getter_newline, hsplit]
    · intro hne page
      have hlen : chunks.length ≠ 0 := by
        have := List.length_pos.mpr hne
        omega
      have hmod : page % chunks.length < chunks.length :=
        Nat.mod_lt page (Nat.pos_of_ne_zero hlen)
      refine ⟨chunks[page % chunks.length], ?_, List.getElem_mem hmod⟩
      simp only [page_getter, rustRem, hlen, if_false, rustIndex]
      rw [List.getElem?_eq_getElem hmod]
  · intro cs
    refine ⟨C2_empty_string_chunks cs, fun page => ?_⟩
    simp [page_getter, rustRem]

/-- Witness for C10 on the spec's example text and on the empty string. -/
theorem C10_page_getter_safety_witness :
    (create_page_getter_newline ("AAAA\nBBBB\nCCCC").data 6 =
      some (page_getter [("AAAA").data, ("BBBB").data, ("CCCC").data]) ∧
     ∃ c, page_getter [("AAAA").data, ("BBBB").data, ("CCCC").data] 7 = PanicOr.ok c ∧
       c ∈ [("AAAA").data, ("BBBB").data, ("CCCC").data]) ∧
    page_getter [] 0 =
      PanicOr.panicked ("attempt to calculate the remainder with a divisor of zero") :=
  ⟨⟨(C10_page_getter_safety.1 ("AAAA\nBBBB\nCCCC").data 6
      [("AAAA").data, ("BBBB").data, ("CCCC").data] (by decide)).1,
    (C10_page_getter_safety.1 ("AAAA\nBBBB\nCCCC").data 6
      [("AAAA").data, ("BBBB").data, ("CCCC").data] (by decide)).2 (by decide) 7⟩,
   (C10_page_getter_safety.2 6).2 0⟩

/-- `TwoColumnList::push_two_colums`: append a row that takes part in the
column padding. -/
def push_two_colums (l : List (String × Option String)) (command description : String) :
    List (String × Option String) :=
  l ++ [(command, some description)]

/-- `TwoColumnList::push_heading`: a blank separator row first when the list
is non-empty, then the category name with a trailing colon, as a row without
a paired value. -/
def push_heading (l : List (String × Option String)) (category : String) :
    List (String × Option String) :=
  (if l.isEmpty then l else l ++ [("", none)]) ++ [(category ++ (":"), none)]

/-- The `longest_command` computation inside `TwoColumnList::into_string`:
maximum label length over the rows that carry a description, 0 if none do
(`.max().unwrap_or(0)`). -/
def longest_command (l : List (String × Option String)) : Nat :=
  (l.filterMap (fun p => p.2.map (fun _ => p.1.length))).foldr Nat.max 0

/-- `TwoColumnList::into_string`: writes each row on its own line; rows with
a description get `longest_command - label.length + 3` spaces of padding
between label and description. -/
def into_string (l : List (String × Option String)) : String :=
  l.foldl (fun text p =>
    match p with
    | (command, some description) =>
      text ++ command ++
        String.mk (List.replicate (longest_command l - command.length + 3) (' ')) ++
        description ++ ("\n")
    | (command, none) => text ++ command ++ ("\n")) ("")

/-- The line `into_string` emits for one row, given the padding target. -/
def rendered_row (longest : Nat) : String × Option String → String
  | (command, some description) =>
    command ++ String.mk (List.replicate (longest - command.length + 3) (' ')) ++
      description ++ ("\n")
  | (command, none) => command ++ ("\n")

/-- Concatenation of the rendered rows, in order. -/
def joinRows (longest : Nat) : List (String × Option String) → String
  | [] => ("")
  | p :: rest => rendered_row longest p ++ joinRows longest rest

theorem le_foldr_max (xs : List Nat) (x : Nat) (h : x ∈ xs) : x ≤ xs.foldr Nat.max 0 := by
  induction xs with
  | nil => cases h
  | cons y ys ih =>
    rcases List.mem_cons.mp h with rfl | hm
    · exact Nat.le_max_left _ _
    · exact le_trans (ih hm) (Nat.le_max_right _ _)

theorem le_longest_command (l : List (String × Option String)) (c d : String)
    (h : (c, some d) ∈ l) : c.length ≤ longest_command l := by
  apply le_foldr_max
  exact List.mem_filterMap.mpr ⟨(c, some d), h, rfl⟩

theorem into_string_eq_joinRows (l : List (String × Option String)) :
    into_string l = joinRows (longest_command l) l := by
  rw [into_string]
  generalize longest_command l = L
  suffices h : ∀ (l2 : List (String × Option String)) (init : String),
      l2.foldl (fun text p =>
        match p with
        | (command, some description) =>
          text ++ command ++
            String.mk (List.replicate (L - command.length + 3) (' ')) ++
            description ++ ("\n")
        | (command, none) => text ++ command ++ ("\n")) init = init ++ joinRows L l2 by
    rw [h l ("")]
    exact String.empty_append _
  intro l2
  induction l2 with
  | nil =>
    intro init
    simp only [List.foldl_nil, joinRows]
    exact (String.append_empty _).symm
  | cons p rest ih =>
    intro init
    rcases p with ⟨c, d⟩
    cases d with
    | none =>
      simp only [List.foldl_cons, joinRows, rendered_row]
      rw [ih]
      simp [String.append_assoc]
    | some d =>
      simp only [List.foldl_cons, joinRows, rendered_row]
      rw [ih]
      simp [String.append_assoc]

/-- C7: `into_string` renders the rows in order; every row with a paired
value is padded so that its value starts at column `longest_command + 3`;
rows without a paired value are emitted without padding; and `push_heading`
prepends one blank separator row exactly when the heading is not first. -/
theorem C7_two_column_alignment (l : List (String × Option String)) :
    into_string l = joinRows (longest_command l) l ∧
    (∀ c d, (c, some d) ∈ l →
      rendered_row (longest_command l) (c, some d) =
        c ++ String.mk (List.replicate (longest_command l - c.length + 3) (' ')) ++
          d ++ ("\n") ∧
      (c ++ String.mk (List.replicate (longest_command l - c.length + 3) (' '))).length =
        longest_command l + 3) ∧
    (∀ c, rendered_row (longest_command l) (c, none) = c ++ ("\n")) ∧
    (∀ category, push_heading [] category = [(category ++ (":"), none)]) ∧
    (l ≠ [] → ∀ category,
      push_heading l category = l ++ [(("" : String), none), (category ++ (":"), none)]) := by
  refine ⟨into_string_eq_joinRows l, ?_, fun c => rfl, fun category => rfl, ?_⟩
  · intro c d hmem
    refine ⟨rfl, ?_⟩
    have hle := le_longest_command l c d hmem
    have hmk : (String.mk (List.replicate (longest_command l - c.length + 3) (' '))).length =
        longest_command l - c.length + 3 := by
      show (List.replicate (longest_command l - c.length + 3) (' ')).length = _
      simp
    rw [String.length_append, hmk]
    omega
  · intro hne category
    have hemp : l.isEmpty = false := by
      cases l
      · exact absurd rfl hne
      · rfl
    simp [push_heading, hemp]

/-- Witness for C7 at the spec's example rows. -/
theorem C7_two_column_alignment_witness :
    (("ping" ++ String.mk (List.replicate
        (longest_command [(("ping" : String), some "desc"), ("pong", some "longer desc")] -
          ("ping" : String).length + 3) (' '))).length =
      longest_command [(("ping" : String), some "desc"), ("pong", some "longer desc")] + 3) ∧
    push_heading [(("ping" : String), some "desc")] ("Commands") =
      [(("ping" : String), some "desc"), ("", none), ("Commands:", none)] :=
  ⟨((C7_two_column_alignment [(("ping" : String), some "desc"), ("pong", some "longer desc")]).2.1
      ("ping") ("desc") (by decide)).2,
   ((C7_two_column_alignment [(("ping" : String), some "desc")]).2.2.2.2 (by decide)
      ("Commands")).trans (by decide)⟩

/-- Target kind of a context-menu command (`ContextMenuCommandAction`
without its payloads; the `__NonExhaustive` variant is unreachable). -/
inductive ContextMenuCommandAction : Type where
  | user : ContextMenuCommandAction
  | message : ContextMenuCommandAction
deriving DecidableEq, Repr

/-- A command parameter, with the fields help rendering reads. -/
structure Parameter : Type where
  name : String
  description : Option String
  required : Bool
deriving DecidableEq, Repr

/-- A command definition, restricted to the fields `help_single_command`
reads.  `slash_action` / `prefix_action` record whether the corresponding
action is present (`is_some()`); subcommands are owned recursively. -/
inductive Command : Type where
  | mk (name : String) (description : Option String) (help_text : Option String)
      (slash_action : Bool) (prefix_action : Bool)
      (context_menu_action : Option ContextMenuCommandAction)
      (context_menu_name : Option String)
      (parameters : List Parameter)
      (subcommands : List Command) : Command

/-- The command's primary name. -/
def Command.name : Command → String
  | Command.mk n _ _ _ _ _ _ _ _ => n

/-- The command's short description. -/
def Command.description : Command → Option String
  | Command.mk _ d _ _ _ _ _ _ _ => d

/-- The command's long help text. -/
def Command.help_text : Command → Option String
  | Command.mk _ _ h _ _ _ _ _ _ => h

/-- Whether a slash action is implemented. -/
def Command.slash_action : Command → Bool
  | Command.mk _ _ _ s _ _ _ _ _ => s

/-- Whether a prefix action is implemented. -/
def Command.prefix_action : Command → Bool
  | Command.mk _ _ _ _ p _ _ _ _ => p

/-- The context-menu action, when implemented. -/
def Command.context_menu_action : Command → Option ContextMenuCommandAction
  | Command.mk _ _ _ _ _ a _ _ _ => a

/-- The context-menu display name, when set. -/
def Command.context_menu_name : Command → Option String
  | Command.mk _ _ _ _ _ _ cm _ _ => cm

/-- The command's parameters. -/
def Command.parameters : Command → List Parameter
  | Command.mk _ _ _ _ _ _ _ ps _ => ps

/-- The command's immediate subcommands. -/
def Command.subcommands : Command → List Command
  | Command.mk _ _ _ _ _ _ _ _ subs => subs

/-- ASCII lowercasing of one character, as Rust's ASCII case folding. -/
def asciiLowerChar (c : Char) : Char :=
  if ('A' ≤ c ∧ c ≤ 'Z') then Char.ofNat (c.toNat + 32) else c

/-- Rust `str::eq_ignore_ascii_case`. -/
def eq_ignore_ascii_case (a b : String) : Bool :=
  a.data.map asciiLowerChar == b.data.map asciiLowerChar

/-- Modelled from the spec: whitespace tokenization of the raw command name
(§4.1 step 2), since `find_command` is not under `src/`.  Accumulates the
current token in reverse. -/
def splitWsAux : List Char → List Char → List String
  | [], acc => if acc.isEmpty then [] else [String.mk acc.reverse]
  | c :: rest, acc =>
    if c = ' ' then
      (if acc.isEmpty then [] else [String.mk acc.reverse]) ++ splitWsAux rest []
    else splitWsAux rest (c :: acc)

/-- Tokenize a raw command name on spaces. -/
def tokenize (raw : String) : List String :=
  splitWsAux raw.data []

/-- Modelled from the spec: the token walk of `find_command` (§4.1 steps
2-3), which is not under `src/`: at each level find a case-insensitive
match among siblings, descend into its subcommands while further tokens
match, and return the deepest match; no top-level match yields `none`. -/
def find_in (commands : List Command) : List String → Option Command
  | [] => none
  | tok :: rest =>
    match commands.find? (fun command => eq_ignore_ascii_case (Command.name command) tok) with
    | none => none
    | some command =>
      match find_in (Command.subcommands command) rest with
      | some deeper => some deeper
      | none => some command

/-- Modelled from the spec: `find_command` over the registered commands
(not under `src/`; spec §4.1). -/
def find_command (commands : List Command) (raw_name : String) : Option Command :=
  find_in commands (tokenize raw_name)

/-- The context-menu-name lookup `help_single_command` performs first: the
first command whose `context_menu_name` equals the requested name
ASCII-case-insensitively. -/
def find_context_menu_command (commands : List Command) (command_name : String) :
    Option Command :=
  commands.find? (fun command =>
    match Command.context_menu_name command with
    | some context_menu_name => eq_ignore_ascii_case context_menu_name command_name
    | none => false)

/-- `format_context_menu_name` from `src/builtins/help.rs`. -/
def format_context_menu_name (command : Command) : Option String :=
  match Command.context_menu_action command with
  | none => none
  | some kind =>
    some (((Command.context_menu_name command).getD (Command.name command)) ++
      (" (on ") ++
      (match kind with
       | ContextMenuCommandAction.user => ("user")
       | ContextMenuCommandAction.message => ("message")) ++ (")"))

/-- `preformat_subcommands` from `src/builtins/help.rs` (one level; the
function does not recurse). -/
def preformat_subcommands (rows : List (String × Option String)) (command : Command)
    (pre : String) : List (String × Option String) :=
  let as_context_command :=
    Command.slash_action command = false ∧ Command.prefix_action command = false
  (Command.subcommands command).foldl (fun acc subcommand =>
    if as_context_command then
      match format_context_menu_name subcommand with
      | none => acc
      | some n => push_two_colums acc n ((Command.description subcommand).getD (""))
    else
      push_two_colums acc (pre ++ (" ") ++ Command.name subcommand)
        ((Command.description subcommand).getD (""))) rows

/-- `help_single_command` from `src/builtins/help.rs`, embedded as the
reply text it composes and sends: the caller then does
`ctx.send(reply).await?; Ok(())`, so modulo transport the function's result
is `Ok(())` with exactly this reply.  `prefix_opt` is the already-awaited
result of `get_prefix_from_options`. -/
def help_single_command (commands : List Command) (prefix_opt : Option String)
    (include_description : Bool) (command_name : String) : PanicOr String :=
  let found :=
    match find_context_menu_command commands command_name with
    | some command => some command
    | none => find_command commands command_name
  match found with
  | none => PanicOr.ok (("No such command `") ++ command_name ++ ("`"))
  | some command =>
    let invocations₁ : List String :=
      if Command.slash_action command
      then [("`/") ++ Command.name command ++ ("`")] else []
    let subpfx₁ : Option String :=
      if Command.slash_action command
      then some (("  /") ++ Command.name command) else none
    let pfx := prefix_opt.getD ("<prefix>")
    let invocations₂ :=
      if Command.prefix_action command
      then invocations₁ ++ [("`") ++ pfx ++ Command.name command ++ ("`")]
      else invocations₁
    let subpfx₂ :=
      if Command.prefix_action command then
        match subpfx₁ with
        | some s => some s
        | none => some (("  ") ++ pfx ++ Command.name command)
      else subpfx₁
    let step₃ : PanicOr (List String × Option String) :=
      if (Command.context_menu_name command).isSome &&
          (Command.context_menu_action command).isSome then
        match rustExpect ("called Option::unwrap on a None value")
            (format_context_menu_name command) with
        | PanicOr.panicked msg => PanicOr.panicked msg
        | PanicOr.ok n =>
          PanicOr.ok (invocations₂ ++ [n],
            match subpfx₂ with
            | some s => some s
            | none => some ("  "))
      else PanicOr.ok (invocations₂, subpfx₂)
    match step₃ with
    | PanicOr.panicked msg => PanicOr.panicked msg
    | PanicOr.ok (invocations₃, subpfx₃) =>
      match subpfx₃ with
      | none => PanicOr.panicked ("assertion failed: subprefix.is_some()")
      | some subpfx₄ =>
        if invocations₃.isEmpty then
          PanicOr.panicked ("assertion failed: !invocations.is_empty()")
        else
          let invocations₅ := String.intercalate ("\n") invocations₃
          let text₁ :=
            match Command.description command, Command.help_text command with
            | some description, some help_text =>
              if include_description
              then description ++ ("\n\n") ++ help_text else help_text
            | some description, none => description
            | none, some help_text => help_text
            | none, none => ("No help available")
          let text₂ :=
            if (Command.parameters command).isEmpty then text₁
            else
              text₁ ++ ("\n\n```\nParameters:\n") ++
                into_string ((Command.parameters command).foldl (fun rows parameter =>
                  push_two_colums rows (Parameter.name parameter)
                    (("(") ++
                      (if Parameter.required parameter then ("required") else ("optional")) ++
                      (") ") ++ ((Parameter.description parameter).getD ("")))) []) ++
                ("```")
          let text₃ :=
            if (Command.subcommands command).isEmpty then text₂
            else
              text₂ ++ ("\n\n```\nSubcommands:\n") ++
                into_string (preformat_subcommands [] command subpfx₄) ++ ("```")
          PanicOr.ok (("**") ++ invocations₅ ++ ("**\n\n") ++ text₃)

/-- C8: when a requested name resolves to no command — neither by
context-menu display name nor by normal/nested lookup — `help_single_command`
composes the plain text reply `` No such command `name` `` and succeeds; the
unresolved name is never turned into an error. -/
theorem C8_no_such_command (commands : List Command) (prefix_opt : Option String)
    (include_description : Bool) (command_name : String)
    (h₁ : find_context_menu_command commands command_name = none)
    (h₂ : find_command commands command_name = none) :
    help_single_command commands prefix_opt include_description command_name =
      PanicOr.ok (("No such command `") ++ command_name ++ ("`")) := by
  simp only [help_single_command, h₁, h₂]

/-- Witness for C8 with an empty command tree and an unresolvable name. -/
theorem C8_no_such_command_witness :
    help_single_command [] none true ("nonexistent") =
      PanicOr.ok (("No such command `") ++ ("nonexistent") ++ ("`")) :=
  C8_no_such_command [] none true ("nonexistent") rfl rfl

end Poise
